import Mathlib

/-!
Verification of the object-composition helper of the zod-extend repository.

The source (src/src/index.ts together with the variant source file that adds
the metadata attachment) defines

  createExtendZod(extensions) = function extendZod(z) {
    const extendedZ = Object.create(Object.getPrototypeOf(z));
    Object.assign(extendedZ, z);
    for (const [key, value] of Object.entries(extensions)) extendedZ[key] = value;
    return Object.freeze(extendedZ);
  }
  with (in the variant) extendZod[OBJECT_EXTEND_FUNCTION_ENTRIES] = extensions.

We embed the fragment of the ECMAScript object model this code exercises:
objects have a prototype reference, an ordered list of own data properties
(string or symbol keyed, each with the enumerable / writable / configurable
attributes), and an extensible flag.  Values are opaque reference identifiers
(natural numbers); reference equality is equality of identifiers.  A heap
maps references to objects, so that mutation claims (the base object is never
written) and by-reference closure over the extension map are expressible.
-/

namespace ZodExtend

/-- A property key of a JavaScript object: a string, or a symbol identified
by a numeric id (two symbols are the same property key iff they are the same
symbol). -/
inductive Key where
  | str : String → Key
  | sym : Nat → Key
deriving DecidableEq, Repr

/-- A data property slot: the stored value (an opaque reference id) together
with the descriptor attributes the source code can observe. -/
structure Property where
  value : Nat
  enumerable : Bool
  writable : Bool
  configurable : Bool
deriving DecidableEq, Repr

/-- A JavaScript object: prototype reference (none models a null prototype),
the ordered list of own properties, and the extensible flag cleared by
Object.freeze. -/
structure JSObject where
  proto : Option Nat
  props : List (Key × Property)
  extensible : Bool
deriving DecidableEq, Repr

/-- Look up the first own property stored under a key. -/
def lookupProp : List (Key × Property) → Key → Option Property
  | [], _ => none
  | (k, p) :: rest, k' => if k = k' then some p else lookupProp rest k'

/-- Overwrite the value of the first property stored under a key, keeping its
descriptor attributes (ECMAScript OrdinarySet on an existing writable data
property updates only the value). -/
def replaceValue : List (Key × Property) → Key → Nat → List (Key × Property)
  | [], _, _ => []
  | (k, p) :: rest, k', v =>
      if k = k' then (k, { p with value := v }) :: rest
      else (k, p) :: replaceValue rest k' v

/-- The success path of a JavaScript assignment o[k] = v: update the value in
place when the key exists, otherwise append a fresh property created with
enumerable, writable and configurable all true (CreateDataProperty). -/
def setOwn (o : JSObject) (k : Key) (v : Nat) : JSObject :=
  match lookupProp o.props k with
  | some _ => { o with props := replaceValue o.props k v }
  | none => { o with props := o.props ++ [(k, ⟨v, true, true, true⟩)] }

/-- Strict-mode assignment o[k] = v: throws a TypeError when the property is
non-writable or the object is not extensible, in which case the object is
left untouched (no new object is produced). -/
def assignStrict (o : JSObject) (k : Key) (v : Nat) : Except String JSObject :=
  match lookupProp o.props k with
  | some p =>
      if p.writable then Except.ok { o with props := replaceValue o.props k v }
      else Except.error "TypeError: Cannot assign to read only property"
  | none =>
      if o.extensible then Except.ok { o with props := o.props ++ [(k, ⟨v, true, true, true⟩)] }
      else Except.error "TypeError: Cannot add property, object is not extensible"

/-- Object.create(proto): a fresh empty extensible object with the given
prototype. -/
def objectCreate (proto : Option Nat) : JSObject :=
  { proto := proto, props := [], extensible := true }

/-- One step of Object.assign: copy one own property of the source onto the
target when it is enumerable (both string and symbol keyed properties are
copied), skip it otherwise. -/
def assignStep (t : JSObject) (kp : Key × Property) : JSObject :=
  if kp.2.enumerable then setOwn t kp.1 kp.2.value else t

/-- Object.assign(target, source): copy every own enumerable property of the
source onto the target, in property order. -/
def objectAssign (target source : JSObject) : JSObject :=
  List.foldl assignStep target source.props

/-- Object.entries at the level of a property list: the string-keyed own
enumerable properties, as (key, value) pairs in property order.  Symbol-keyed
properties are never listed. -/
def entriesList (l : List (Key × Property)) : List (String × Nat) :=
  l.filterMap fun kp =>
    match kp.1 with
    | Key.str s => if kp.2.enumerable then some (s, kp.2.value) else none
    | Key.sym _ => none

/-- Object.entries(o). -/
def objectEntries (o : JSObject) : List (String × Nat) :=
  entriesList o.props

/-- Freezing a single property: clear writable and configurable, keep the
value and the enumerable attribute. -/
def freezeProperty (p : Property) : Property :=
  { p with writable := false, configurable := false }

/-- Object.freeze(o): clear the extensible flag and freeze every own
property. -/
def objectFreeze (o : JSObject) : JSObject :=
  { o with extensible := false,
           props := o.props.map fun kp => (kp.1, freezeProperty kp.2) }

/-- One iteration of the source loop: extendedZ[key] = value for a
(string key, value) entry of the extension map. -/
def overlayStep (t : JSObject) (sv : String × Nat) : JSObject :=
  setOwn t (Key.str sv.1) sv.2

/-- The for..of loop of the source: assign every Object.entries entry of the
extension map onto the target, in order. -/
def applyExtensions (extensions target : JSObject) : JSObject :=
  List.foldl overlayStep target (objectEntries extensions)

/-- A heap: reference ids are indices into the list. -/
abbrev Heap := List JSObject

/-- The object a dangling reference reads as (never reachable from the code
under verification, needed only to keep heap reads total). -/
def emptyObject : JSObject :=
  { proto := none, props := [], extensible := true }

/-- Read a reference from the heap. -/
def heapGet (h : Heap) (r : Nat) : JSObject :=
  h.getD r emptyObject

/-- Overwrite the object stored at a reference (mutation of an existing
object). -/
def heapSet (h : Heap) (r : Nat) (o : JSObject) : Heap :=
  h.set r o

/-- Allocate a fresh object, returning the new heap and the fresh
reference. -/
def heapAlloc (h : Heap) (o : JSObject) : Heap × Nat :=
  (h ++ [o], h.length)

/-- The errors the embedded code can surface.  typeError is the host fault a
primitive operation raises on its own; invalidArgument models an explicit
fail-fast argument check (the shape of error the specification calls for on
a null base). -/
inductive JSError where
  | typeError : String → JSError
  | invalidArgument : String → JSError
deriving DecidableEq, Repr

/-- Whether a call outcome is an explicit invalid-argument failure. -/
def resultIsInvalidArgument : Except JSError (Heap × Nat) → Bool
  | Except.error (JSError.invalidArgument _) => true
  | _ => false

/-- The body of extendZod on a non-null base reference, statement by
statement: read the prototype of z, create the fresh object, Object.assign
the base onto it, overlay the current entries of the extension map, freeze,
and allocate the result.  The intermediate object is a local value invisible
to any other reference, so its in-place mutation is rendered as pure
rebinding; the heap is extended only by the final fresh allocation and no
existing cell is written. -/
def extendZodBody (h : Heap) (extRef zRef : Nat) : Heap × Nat :=
  let z := heapGet h zRef
  let extensions := heapGet h extRef
  let extendedZ0 := objectCreate z.proto
  let extendedZ1 := objectAssign extendedZ0 z
  let extendedZ2 := applyExtensions extensions extendedZ1
  let extendedZ3 := objectFreeze extendedZ2
  heapAlloc h extendedZ3

/-- extendZod(z) for a possibly null base.  On a null base the very first
operation, Object.getPrototypeOf(null), raises the host TypeError; the code
performs no argument check of its own. -/
def extendZod (h : Heap) (extRef : Nat) (z : Option Nat) : Except JSError (Heap × Nat) :=
  match z with
  | none => Except.error (JSError.typeError "Cannot convert undefined or null to object")
  | some zRef => Except.ok (extendZodBody h extRef zRef)

/-- The well-known shared symbol imported from universal-symbols under which
the variant source attaches the extension map to the returned function. -/
def OBJECT_EXTEND_FUNCTION_ENTRIES : Key :=
  Key.sym 0

/-- The function value createExtendZod returns: it closes over the extension
map by reference (extRef), and carries its own property list, holding the
metadata attachment. -/
structure ApplyFn where
  extRef : Nat
  fnProps : List (Key × Property)
deriving DecidableEq, Repr

/-- createExtendZod(extensions): build the extendZod closure over the
reference to the extension map, then perform the one assignment
extendZod[OBJECT_EXTEND_FUNCTION_ENTRIES] = extensions, which creates an
ordinary (enumerable, writable, configurable) symbol-keyed data property
whose value is the reference to the very extension map supplied. -/
def createExtendZod (extRef : Nat) : ApplyFn :=
  { extRef := extRef,
    fnProps := [(OBJECT_EXTEND_FUNCTION_ENTRIES, ⟨extRef, true, true, true⟩)] }

/-- Calling the returned function: it reads the extension map from the heap
through the closed-over reference at call time. -/
def ApplyFn.call (f : ApplyFn) (h : Heap) (z : Option Nat) : Except JSError (Heap × Nat) :=
  extendZod h f.extRef z

/-- The object a successful extendZod call returns. -/
def applyResult (h : Heap) (extRef zRef : Nat) : JSObject :=
  heapGet (extendZodBody h extRef zRef).1 (extendZodBody h extRef zRef).2

/-- The value stored under an own property key, when present. -/
def ownValue (o : JSObject) (k : Key) : Option Nat :=
  (lookupProp o.props k).map Property.value

/-- Well-formedness of an object as JavaScript maintains it: own property
keys are pairwise distinct. -/
def WF (o : JSObject) : Prop :=
  (o.props.map Prod.fst).Nodup

instance decidableWF (o : JSObject) : Decidable (WF o) :=
  inferInstanceAs (Decidable ((o.props.map Prod.fst).Nodup))

/-- n successive applyFn(base) calls, threading the heap. -/
def callTimes (f : ApplyFn) (zRef : Nat) : Nat → Heap → Heap
  | 0, h => h
  | n + 1, h => callTimes f zRef n (extendZodBody h f.extRef zRef).1

/-- Whether the object holds a non-enumerable own property under the key
(enumerable attribute of the descriptor false). -/
def hasNonEnumerableOwn (props : List (Key × Property)) (k : Key) : Bool :=
  match lookupProp props k with
  | some p => !p.enumerable
  | none => false

/-- A concrete extension map for witnesses: one string-keyed schema creator
(the callable with reference id 77) under the name custom, plus a
symbol-keyed entry (reference id 55). -/
def demoExt : JSObject :=
  { proto := none,
    props := [(Key.str "custom", ⟨77, true, true, true⟩),
              (Key.sym 2, ⟨55, true, true, true⟩)],
    extensible := true }

/-- A concrete base object for witnesses: builder members string and custom,
plus a symbol-keyed own enumerable member. -/
def demoBase : JSObject :=
  { proto := some 5,
    props := [(Key.str "string", ⟨10, true, true, true⟩),
              (Key.str "custom", ⟨11, true, true, true⟩),
              (Key.sym 3, ⟨12, true, true, true⟩)],
    extensible := true }

/-- A second extension map value, used to model the caller mutating the map
between creation and a later apply call. -/
def demoExt2 : JSObject :=
  { proto := none,
    props := [(Key.str "plugin", ⟨99, true, true, true⟩)],
    extensible := true }

/-- Witness heap: the extension map lives at reference 0, the base at 1. -/
def demoHeap : Heap := [demoExt, demoBase]

/-! Lemmas about property lists. -/

theorem lookupProp_append (l1 l2 : List (Key × Property)) (k : Key) :
    lookupProp (l1 ++ l2) k =
      match lookupProp l1 k with
      | some p => some p
      | none => lookupProp l2 k := by
  induction l1 with
  | nil => rfl
  | cons a rest ih =>
    obtain ⟨k1, p1⟩ := a
    by_cases hk : k1 = k <;> simp [lookupProp, hk, ih]

theorem lookupProp_eq_none_iff (l : List (Key × Property)) (k : Key) :
    lookupProp l k = none ↔ k ∉ l.map Prod.fst := by
  induction l with
  | nil => simp [lookupProp]
  | cons a rest ih =>
    obtain ⟨k1, p1⟩ := a
    by_cases hk : k1 = k
    · subst hk
      simp [lookupProp]
    · rw [lookupProp, if_neg hk, ih]
      simp only [List.map_cons, List.mem_cons, not_or]
      constructor
      · intro h
        exact ⟨fun he => hk he.symm, h⟩
      · intro h
        exact h.2

theorem lookupProp_mem : ∀ (l : List (Key × Property)) (k : Key) (p : Property),
    lookupProp l k = some p → (k, p) ∈ l := by
  intro l
  induction l with
  | nil => intro k p h; cases h
  | cons a rest ih =>
    intro k p h
    obtain ⟨k1, p1⟩ := a
    rw [lookupProp] at h
    split at h
    · next heq =>
      cases h
      subst heq
      exact List.mem_cons_self _ _
    · exact List.mem_cons_of_mem _ (ih k p h)

theorem lookupProp_replaceValue_self (l : List (Key × Property)) (k : Key) (v : Nat) :
    lookupProp (replaceValue l k v) k =
      (lookupProp l k).map fun p => { p with value := v } := by
  induction l with
  | nil => rfl
  | cons a rest ih =>
    obtain ⟨k1, p1⟩ := a
    by_cases hk : k1 = k <;> simp [replaceValue, lookupProp, hk, ih]

theorem lookupProp_replaceValue_ne (l : List (Key × Property)) (k k' : Key) (v : Nat)
    (h : k' ≠ k) :
    lookupProp (replaceValue l k v) k' = lookupProp l k' := by
  induction l with
  | nil => rfl
  | cons a rest ih =>
    obtain ⟨k1, p1⟩ := a
    by_cases hk : k1 = k
    · subst hk
      simp [replaceValue, lookupProp, Ne.symm h]
    · simp [replaceValue, lookupProp, hk, ih]

/-! Lemmas about setOwn. -/

theorem setOwn_proto (o : JSObject) (k : Key) (v : Nat) :
    (setOwn o k v).proto = o.proto := by
  rcases h : lookupProp o.props k with _ | p <;> simp [setOwn, h]

theorem ownValue_setOwn_self (o : JSObject) (k : Key) (v : Nat) :
    ownValue (setOwn o k v) k = some v := by
  rcases h : lookupProp o.props k with _ | p
  · simp [ownValue, setOwn, h, lookupProp_append, lookupProp]
  · simp [ownValue, setOwn, h, lookupProp_replaceValue_self]

theorem lookupProp_setOwn_ne (o : JSObject) (k k' : Key) (v : Nat) (h : k' ≠ k) :
    lookupProp (setOwn o k v).props k' = lookupProp o.props k' := by
  rcases hl : lookupProp o.props k with _ | p
  · rcases hl' : lookupProp o.props k' with _ | q <;>
      simp [setOwn, hl, lookupProp_append, hl', lookupProp, Ne.symm h]
  · simp [setOwn, hl, lookupProp_replaceValue_ne _ _ _ _ h]

/-! Lemmas about the Object.assign fold. -/

theorem foldl_assignStep_proto : ∀ (l : List (Key × Property)) (t : JSObject),
    (List.foldl assignStep t l).proto = t.proto := by
  intro l
  induction l with
  | nil => intro t; rfl
  | cons a rest ih =>
    intro t
    rw [List.foldl_cons, ih]
    by_cases he : a.2.enumerable <;> simp [assignStep, he, setOwn_proto]

theorem foldl_assignStep_lookup_not_mem (k : Key) :
    ∀ (l : List (Key × Property)) (t : JSObject), k ∉ l.map Prod.fst →
      lookupProp (List.foldl assignStep t l).props k = lookupProp t.props k := by
  intro l
  induction l with
  | nil => intro t _; rfl
  | cons a rest ih =>
    intro t hk
    simp only [List.map_cons, List.mem_cons, not_or] at hk
    rw [List.foldl_cons, ih _ hk.2]
    by_cases he : a.2.enumerable
    · simp only [assignStep, he, if_true]
      exact lookupProp_setOwn_ne _ _ _ _ hk.1
    · simp [assignStep, he]

theorem foldl_assignStep_ownValue_mem (k : Key) (p : Property) :
    ∀ (l : List (Key × Property)) (t : JSObject), (l.map Prod.fst).Nodup →
      (k, p) ∈ l → p.enumerable = true →
      ownValue (List.foldl assignStep t l) k = some p.value := by
  intro l
  induction l with
  | nil => intro t _ hm _; cases hm
  | cons a rest ih =>
    intro t hnd hm he
    simp only [List.map_cons, List.nodup_cons] at hnd
    rcases List.mem_cons.mp hm with heq | hmem
    · subst heq
      rw [List.foldl_cons]
      unfold ownValue
      rw [foldl_assignStep_lookup_not_mem k rest _ hnd.1]
      have hstep : assignStep t (k, p) = setOwn t k p.value := by
        simp [assignStep, he]
      rw [hstep]
      have := ownValue_setOwn_self t k p.value
      unfold ownValue at this
      exact this
    · rw [List.foldl_cons]
      exact ih _ hnd.2 hmem he

/-! Lemmas about the extension-overlay fold. -/

theorem foldl_overlayStep_proto : ∀ (l : List (String × Nat)) (t : JSObject),
    (List.foldl overlayStep t l).proto = t.proto := by
  intro l
  induction l with
  | nil => intro t; rfl
  | cons a rest ih =>
    intro t
    rw [List.foldl_cons, ih]
    simp [overlayStep, setOwn_proto]

theorem foldl_overlayStep_lookup_sym (j : Nat) :
    ∀ (l : List (String × Nat)) (t : JSObject),
      lookupProp (List.foldl overlayStep t l).props (Key.sym j) =
        lookupProp t.props (Key.sym j) := by
  intro l
  induction l with
  | nil => intro t; rfl
  | cons a rest ih =>
    intro t
    rw [List.foldl_cons, ih]
    exact lookupProp_setOwn_ne _ _ _ _ (by simp)

theorem foldl_overlayStep_lookup_not_mem (s : String) :
    ∀ (l : List (String × Nat)) (t : JSObject), s ∉ l.map Prod.fst →
      lookupProp (List.foldl overlayStep t l).props (Key.str s) =
        lookupProp t.props (Key.str s) := by
  intro l
  induction l with
  | nil => intro t _; rfl
  | cons a rest ih =>
    intro t hs
    simp only [List.map_cons, List.mem_cons, not_or] at hs
    rw [List.foldl_cons, ih _ hs.2]
    exact lookupProp_setOwn_ne _ _ _ _ (by simp [hs.1])

theorem foldl_overlayStep_ownValue_mem (s : String) (v : Nat) :
    ∀ (l : List (String × Nat)) (t : JSObject), (l.map Prod.fst).Nodup →
      (s, v) ∈ l →
      ownValue (List.foldl overlayStep t l) (Key.str s) = some v := by
  intro l
  induction l with
  | nil => intro t _ hm; cases hm
  | cons a rest ih =>
    intro t hnd hm
    simp only [List.map_cons, List.nodup_cons] at hnd
    rcases List.mem_cons.mp hm with heq | hmem
    · subst heq
      rw [List.foldl_cons]
      unfold ownValue
      rw [foldl_overlayStep_lookup_not_mem s rest _ (by simpa using hnd.1)]
      have := ownValue_setOwn_self t (Key.str s) v
      unfold ownValue at this
      exact this
    · rw [List.foldl_cons]
      exact ih _ hnd.2 hmem

/-! Lemmas about Object.entries. -/

theorem mem_entriesList (l : List (Key × Property)) (s : String) (v : Nat)
    (h : (s, v) ∈ entriesList l) : Key.str s ∈ l.map Prod.fst := by
  unfold entriesList at h
  rcases List.mem_filterMap.mp h with ⟨kp, hkp, heq⟩
  rcases kp with ⟨k, p⟩
  cases k with
  | str s1 =>
    by_cases he : p.enumerable
    · simp only [he, if_true] at heq
      have hs : s1 = s := by
        have := congrArg Prod.fst (Option.some.inj heq)
        simpa using this
      subst hs
      exact List.mem_map_of_mem Prod.fst hkp
    · simp [he] at heq
  | sym j => simp at heq

theorem entriesList_keys_sub (l : List (Key × Property)) (s : String)
    (h : s ∈ (entriesList l).map Prod.fst) : Key.str s ∈ l.map Prod.fst := by
  rcases List.mem_map.mp h with ⟨sv, hsv, hfst⟩
  rcases sv with ⟨s1, v1⟩
  have hs : s1 = s := by simpa using hfst
  subst hs
  exact mem_entriesList l s1 v1 hsv

theorem entriesList_keys_nodup : ∀ (l : List (Key × Property)),
    (l.map Prod.fst).Nodup → ((entriesList l).map Prod.fst).Nodup := by
  intro l
  induction l with
  | nil => intro _; simp [entriesList]
  | cons a rest ih =>
    intro hnd
    simp only [List.map_cons, List.nodup_cons] at hnd
    rcases a with ⟨k, p⟩
    cases k with
    | sym j => simpa [entriesList] using ih hnd.2
    | str s =>
      by_cases he : p.enumerable
      · have hcons : entriesList ((Key.str s, p) :: rest) = (s, p.value) :: entriesList rest := by
          simp [entriesList, he]
        rw [hcons]
        simp only [List.map_cons, List.nodup_cons]
        refine ⟨?_, ih hnd.2⟩
        intro hmem
        exact hnd.1 (entriesList_keys_sub rest s hmem)
      · simpa [entriesList, he] using ih hnd.2

/-! Lemmas about Object.freeze. -/

theorem lookupProp_freezeMap (l : List (Key × Property)) (k : Key) :
    lookupProp (l.map fun kp => (kp.1, freezeProperty kp.2)) k =
      (lookupProp l k).map freezeProperty := by
  induction l with
  | nil => rfl
  | cons a rest ih =>
    rcases a with ⟨k1, p1⟩
    by_cases hk : k1 = k <;> simp [lookupProp, hk, ih]

theorem lookupProp_objectFreeze (o : JSObject) (k : Key) :
    lookupProp (objectFreeze o).props k = (lookupProp o.props k).map freezeProperty :=
  lookupProp_freezeMap o.props k

theorem ownValue_objectFreeze (o : JSObject) (k : Key) :
    ownValue (objectFreeze o) k = ownValue o k := by
  unfold ownValue
  rw [lookupProp_objectFreeze]
  cases lookupProp o.props k <;> rfl

theorem objectFreeze_proto (o : JSObject) : (objectFreeze o).proto = o.proto := rfl

theorem assignStrict_objectFreeze (o : JSObject) (k : Key) (v : Nat) :
    ∃ e, assignStrict (objectFreeze o) k v = Except.error e := by
  rcases hq : lookupProp o.props k with _ | q
  · refine ⟨"TypeError: Cannot add property, object is not extensible", ?_⟩
    unfold assignStrict
    rw [lookupProp_objectFreeze, hq]
    rfl
  · refine ⟨"TypeError: Cannot assign to read only property", ?_⟩
    unfold assignStrict
    rw [lookupProp_objectFreeze, hq]
    rfl

/-! Lemmas about the heap. -/

theorem heapGet_append_lt : ∀ (h : Heap) (r : Nat), r < h.length →
    ∀ (l : List JSObject), heapGet (h ++ l) r = heapGet h r := by
  intro h
  induction h with
  | nil => intro r hr; simp at hr
  | cons a t ih =>
    intro r hr l
    cases r with
    | zero => rfl
    | succ n => exact ih n (by simpa using hr) l

theorem heapGet_concat_self : ∀ (h : Heap) (o : JSObject),
    heapGet (h ++ [o]) h.length = o := by
  intro h
  induction h with
  | nil => intro o; rfl
  | cons a t ih => intro o; exact ih o

theorem heapGet_set_self : ∀ (h : Heap) (r : Nat), r < h.length →
    ∀ (o : JSObject), heapGet (heapSet h r o) r = o := by
  intro h
  induction h with
  | nil => intro r hr; simp at hr
  | cons a t ih =>
    intro r hr o
    cases r with
    | zero => rfl
    | succ n => exact ih n (by simpa using hr) o

/-! Unfolding the body of extendZod. -/

theorem extendZodBody_eq (h : Heap) (extRef zRef : Nat) :
    extendZodBody h extRef zRef =
      (h ++ [objectFreeze (applyExtensions (heapGet h extRef)
           (objectAssign (objectCreate (heapGet h zRef).proto) (heapGet h zRef)))],
       h.length) := rfl

theorem applyResult_eq (h : Heap) (extRef zRef : Nat) :
    applyResult h extRef zRef =
      objectFreeze (applyExtensions (heapGet h extRef)
        (objectAssign (objectCreate (heapGet h zRef).proto) (heapGet h zRef))) := by
  unfold applyResult
  rw [extendZodBody_eq]
  exact heapGet_concat_self h _

theorem extendZodBody_frame (h : Heap) (extRef zRef r : Nat) (hr : r < h.length) :
    heapGet (extendZodBody h extRef zRef).1 r = heapGet h r := by
  rw [extendZodBody_eq]
  exact heapGet_append_lt h r hr _

theorem extendZodBody_length (h : Heap) (extRef zRef : Nat) :
    (extendZodBody h extRef zRef).1.length = h.length + 1 := by
  rw [extendZodBody_eq]
  simp

/-- Any own value the result carries at an Object.entries entry of the
extension map is the value of that entry. -/
theorem applyResult_ownValue_entry (h : Heap) (extRef zRef : Nat) (k : String) (v : Nat)
    (hwf : WF (heapGet h extRef)) (hk : (k, v) ∈ objectEntries (heapGet h extRef)) :
    ownValue (applyResult h extRef zRef) (Key.str k) = some v := by
  rw [applyResult_eq, ownValue_objectFreeze]
  unfold applyExtensions
  exact foldl_overlayStep_ownValue_mem k v (objectEntries (heapGet h extRef)) _
    (entriesList_keys_nodup _ hwf) hk

/-! Claim theorems. -/

/-- Claim C1: for every key of the supplied extension mapping (an own
enumerable string-keyed entry, as Object.entries reads it), the object
returned by applyFn(base) has that key as an own property whose value is,
by reference equality, the constructor originally supplied for it. -/
theorem extension_presence (h : Heap) (extRef zRef : Nat) (k : String) (v : Nat)
    (hwf : WF (heapGet h extRef)) (hk : (k, v) ∈ objectEntries (heapGet h extRef)) :
    ownValue (applyResult h extRef zRef) (Key.str k) = some v :=
  applyResult_ownValue_entry h extRef zRef k v hwf hk

theorem extension_presence_witness :
    ownValue (applyResult demoHeap 0 1) (Key.str "custom") = some 77 :=
  extension_presence demoHeap 0 1 "custom" 77 (by decide) (by decide)

/-- Claim C2: every own enumerable property of the base whose key is not a
key of the extension map reappears on the object returned by applyFn(base)
with the same value (reference or value equality). -/
theorem base_preservation (h : Heap) (extRef zRef : Nat) (k : Key) (p : Property)
    (hwfz : WF (heapGet h zRef))
    (hp : lookupProp (heapGet h zRef).props k = some p)
    (henum : p.enumerable = true)
    (hnot : lookupProp (heapGet h extRef).props k = none) :
    ownValue (applyResult h extRef zRef) k = some p.value := by
  rw [applyResult_eq, ownValue_objectFreeze]
  have hassign : ownValue (objectAssign (objectCreate (heapGet h zRef).proto)
      (heapGet h zRef)) k = some p.value :=
    foldl_assignStep_ownValue_mem k p (heapGet h zRef).props _ hwfz
      (lookupProp_mem _ _ _ hp) henum
  unfold applyExtensions
  unfold ownValue at hassign ⊢
  cases k with
  | sym j =>
    rw [foldl_overlayStep_lookup_sym]
    exact hassign
  | str s =>
    have hnm : s ∉ (objectEntries (heapGet h extRef)).map Prod.fst := by
      intro hmem
      exact (lookupProp_eq_none_iff _ _).mp hnot (entriesList_keys_sub _ s hmem)
    rw [foldl_overlayStep_lookup_not_mem s _ _ hnm]
    exact hassign

theorem base_preservation_witness :
    ownValue (applyResult demoHeap 0 1) (Key.str "string") = some 10 :=
  base_preservation demoHeap 0 1 (Key.str "string") ⟨10, true, true, true⟩
    (by decide) (by decide) (by decide) (by decide)

/-- Claim C3: an extension key that also names an existing own property of
the base ends up carrying the extension constructor on the returned object,
while the base object itself is left untouched by the call. -/
theorem collision_overwrite (h : Heap) (extRef zRef : Nat) (k : String) (v : Nat)
    (p : Property)
    (hwf : WF (heapGet h extRef))
    (hk : (k, v) ∈ objectEntries (heapGet h extRef))
    (hbase : lookupProp (heapGet h zRef).props (Key.str k) = some p)
    (hz : zRef < h.length) :
    ownValue (applyResult h extRef zRef) (Key.str k) = some v ∧
    heapGet (extendZodBody h extRef zRef).1 zRef = heapGet h zRef :=
  ⟨applyResult_ownValue_entry h extRef zRef k v hwf hk,
   extendZodBody_frame h extRef zRef zRef hz⟩

theorem collision_overwrite_witness :
    ownValue (applyResult demoHeap 0 1) (Key.str "custom") = some 77 ∧
    heapGet (extendZodBody demoHeap 0 1).1 1 = heapGet demoHeap 1 :=
  collision_overwrite demoHeap 0 1 "custom" 77 ⟨11, true, true, true⟩
    (by decide) (by decide) (by decide) (by decide)

/-- Claim C4: the base object stored in the heap is identical (prototype,
own-property names and values, extensibility) before and after any number of
applyFn(base) calls; the calls only ever allocate fresh objects. -/
theorem base_not_mutated (f : ApplyFn) (zRef n : Nat) :
    ∀ (h : Heap), zRef < h.length →
      heapGet (callTimes f zRef n h) zRef = heapGet h zRef := by
  induction n with
  | zero => intro h _; rfl
  | succ m ih =>
    intro h hz
    have hlen : zRef < (extendZodBody h f.extRef zRef).1.length := by
      rw [extendZodBody_length]
      omega
    calc heapGet (callTimes f zRef (m + 1) h) zRef
        = heapGet (callTimes f zRef m (extendZodBody h f.extRef zRef).1) zRef := rfl
      _ = heapGet (extendZodBody h f.extRef zRef).1 zRef := ih _ hlen
      _ = heapGet h zRef := extendZodBody_frame h f.extRef zRef zRef hz

theorem base_not_mutated_witness :
    heapGet (callTimes (createExtendZod 0) 1 2 demoHeap) 1 = heapGet demoHeap 1 :=
  base_not_mutated (createExtendZod 0) 1 2 demoHeap (by decide)

/-- Claim C5: the object returned by applyFn(base) is frozen: a strict-mode
attempt to add any new property or reassign any existing one (original or
extension-supplied) raises a TypeError, and, the assignment having failed,
produces no updated object. -/
theorem extended_frozen (h : Heap) (extRef zRef : Nat) (k : Key) (v : Nat) :
    ∃ e, assignStrict (applyResult h extRef zRef) k v = Except.error e := by
  rw [applyResult_eq]
  exact assignStrict_objectFreeze _ k v

/-- Claim C6, counterexample: the metadata attachment is created by plain
assignment, so its property descriptor has the enumerable attribute set; it
is not a non-enumerable property as the claim states. -/
theorem metadata_descriptor_enumerable :
    hasNonEnumerableOwn (createExtendZod 0).fnProps OBJECT_EXTEND_FUNCTION_ENTRIES = false ∧
    lookupProp (createExtendZod 0).fnProps OBJECT_EXTEND_FUNCTION_ENTRIES =
      some { value := 0, enumerable := true, writable := true, configurable := true } := by
  exact ⟨rfl, rfl⟩

/-- Claim C6, amended: the apply function carries, under the single reserved
non-string (symbol) key, a reference to the very extension map supplied at
creation (hence equal by key set and by per-key reference equality); the
attached property is an ordinary enumerable data property, and being
symbol-keyed it is excluded from string-keyed enumeration such as
Object.entries. -/
theorem metadata_channel_attachment (extRef : Nat) :
    lookupProp (createExtendZod extRef).fnProps OBJECT_EXTEND_FUNCTION_ENTRIES =
      some { value := extRef, enumerable := true, writable := true, configurable := true } ∧
    entriesList (createExtendZod extRef).fnProps = [] ∧
    (createExtendZod extRef).extRef = extRef := by
  refine ⟨?_, rfl, rfl⟩
  simp [createExtendZod, lookupProp]

/-- Claim C7: the prototype of the object returned by applyFn(base) is the
same reference as the prototype of the base. -/
theorem prototype_preserved (h : Heap) (extRef zRef : Nat) :
    (applyResult h extRef zRef).proto = (heapGet h zRef).proto := by
  rw [applyResult_eq, objectFreeze_proto]
  unfold applyExtensions
  rw [foldl_overlayStep_proto]
  unfold objectAssign
  rw [foldl_assignStep_proto]
  rfl

/-- Claim C8, counterexample: calling the apply function with a null base
does not produce an explicit invalid-argument error; the call surfaces the
TypeError the prototype-read operation itself raises. -/
theorem null_base_not_invalid_argument :
    resultIsInvalidArgument (ApplyFn.call (createExtendZod 0) [] none) = false ∧
    ApplyFn.call (createExtendZod 0) [] none =
      Except.error (JSError.typeError "Cannot convert undefined or null to object") := by
  exact ⟨rfl, rfl⟩

/-- Claim C8, amended: on a null base the call fails immediately, but with
the TypeError propagated from the initial prototype read
(Object.getPrototypeOf on null); the code performs no explicit
invalid-argument check of its own. -/
theorem null_base_propagates_typeerror (f : ApplyFn) (h : Heap) :
    f.call h none =
      Except.error (JSError.typeError "Cannot convert undefined or null to object") ∧
    resultIsInvalidArgument (f.call h none) = false := by
  exact ⟨rfl, rfl⟩

/-- Claim C9: the apply function closes over the extension map by reference
and reads its contents per key at apply time: after the map stored at the
closed-over reference is mutated, a later call reflects the mutated
contents, whatever the map held at creation time. -/
theorem map_read_at_apply_time (h : Heap) (extRef zRef : Nat) (E2 : JSObject)
    (k : String) (v : Nat)
    (hr : extRef < h.length) (hwf : WF E2) (hk : (k, v) ∈ objectEntries E2) :
    ownValue (applyResult (heapSet h extRef E2) (createExtendZod extRef).extRef zRef)
      (Key.str k) = some v := by
  have hget : heapGet (heapSet h extRef E2) extRef = E2 := heapGet_set_self h extRef hr E2
  show ownValue (applyResult (heapSet h extRef E2) extRef zRef) (Key.str k) = some v
  refine applyResult_ownValue_entry (heapSet h extRef E2) extRef zRef k v ?_ ?_
  · rw [hget]
    exact hwf
  · rw [hget]
    exact hk

theorem map_read_at_apply_time_witness :
    ownValue (applyResult (heapSet demoHeap 0 demoExt2) (createExtendZod 0).extRef 1)
      (Key.str "plugin") = some 99 :=
  map_read_at_apply_time demoHeap 0 1 demoExt2 "plugin" 99
    (by decide) (by decide) (by decide)

/-- Claim C10: a symbol-keyed entry of the extension map never appears on
the returned object (the overlay walks Object.entries, which lists string
keys only), whereas a symbol-keyed own enumerable property of the base is
copied onto the returned object by the Object.assign step. -/
theorem symbol_key_handling (h : Heap) (extRef zRef : Nat) (j i : Nat)
    (p q : Property)
    (hj : lookupProp (heapGet h extRef).props (Key.sym j) = some p)
    (hjz : lookupProp (heapGet h zRef).props (Key.sym j) = none)
    (hwfz : WF (heapGet h zRef))
    (hi : lookupProp (heapGet h zRef).props (Key.sym i) = some q)
    (hienum : q.enumerable = true) :
    lookupProp (applyResult h extRef zRef).props (Key.sym j) = none ∧
    ownValue (applyResult h extRef zRef) (Key.sym i) = some q.value := by
  constructor
  · rw [applyResult_eq, lookupProp_objectFreeze]
    unfold applyExtensions
    rw [foldl_overlayStep_lookup_sym]
    unfold objectAssign
    rw [foldl_assignStep_lookup_not_mem (Key.sym j) (heapGet h zRef).props _
      ((lookupProp_eq_none_iff _ _).mp hjz)]
    rfl
  · rw [applyResult_eq, ownValue_objectFreeze]
    have hassign : ownValue (objectAssign (objectCreate (heapGet h zRef).proto)
        (heapGet h zRef)) (Key.sym i) = some q.value :=
      foldl_assignStep_ownValue_mem (Key.sym i) q (heapGet h zRef).props _ hwfz
        (lookupProp_mem _ _ _ hi) hienum
    unfold applyExtensions
    unfold ownValue at hassign ⊢
    rw [foldl_overlayStep_lookup_sym]
    exact hassign

theorem symbol_key_handling_witness :
    lookupProp (applyResult demoHeap 0 1).props (Key.sym 2) = none ∧
    ownValue (applyResult demoHeap 0 1) (Key.sym 3) = some 12 :=
  symbol_key_handling demoHeap 0 1 2 3 ⟨55, true, true, true⟩ ⟨12, true, true, true⟩
    (by decide) (by decide) (by decide) (by decide) (by decide)

end ZodExtend
